import Mathlib

/-!
# Verification of the claude-manager configuration core

A shallow embedding of `src/claude_manager/models.py` and
`src/claude_manager/config.py` (the project data model and the
configuration persistence / backup subsystem), together with proofs
settling the specification claims about them.

Modelling conventions:
* Python JSON-like values are the inductive `JValue`; Python `dict`s are
  insertion-ordered association lists (`List (String × JValue)`), with
  first-occurrence lookup and in-place update, matching `dict` semantics
  (keys produced by `json.load` and by the code itself are unique).
* Files are `FileContent`: either bytes that parse as a JSON value or
  bytes that fail to parse (`json.load` raises on the latter).
* The filesystem touched by `ClaudeConfigManager` is the record
  `ManagerState`: the config file, the single temp file slot
  (`config_path.with_suffix(".tmp")`) and the backup directory listing.
* I/O failures that the Python code catches (injected write errors,
  `unlink` failures) are explicit fault parameters; an uncaught Python
  exception is modelled by an `Option`-valued result being `none`.
* JSON numbers are embedded as `Int`; float literals play no role in any
  claim and are outside the model.
-/

/-- A JSON-like Python value (`None`, `bool`, `int`, `str`, `list`, `dict`). -/
inductive JValue where
  | null
  | bool (b : Bool)
  | num (n : Int)
  | str (s : String)
  | arr (xs : List JValue)
  | obj (fields : List (String × JValue))

/-- Python `dict.get(k, default)`: value at the first occurrence of `k`,
or `default` when `k` is absent. -/
def dictGet (d : List (String × JValue)) (k : String) (dflt : JValue) : JValue :=
  match d with
  | [] => dflt
  | (k', v) :: rest => if k' = k then v else dictGet rest k dflt

/-- Python `k in d` for a dict. -/
def containsKey (d : List (String × JValue)) (k : String) : Bool :=
  match d with
  | [] => false
  | (k', _) :: rest => k' = k || containsKey rest k

/-- Python `d[k] = v`: replaces the value at the first occurrence of `k`
in place, or appends a fresh entry at the end (dict insertion order). -/
def setEntry {β : Type} (d : List (String × β)) (k : String) (v : β) :
    List (String × β) :=
  match d with
  | [] => [(k, v)]
  | (k', v') :: rest => if k' = k then (k, v) :: rest else (k', v') :: setEntry rest k v

/-- Python `d[k]` as a partial lookup (`none` when the key is absent). -/
def lookupEntry {β : Type} (d : List (String × β)) (k : String) : Option β :=
  match d with
  | [] => none
  | (k', v) :: rest => if k' = k then some v else lookupEntry rest k

mutual
/-- Python `repr()` of a JSON-like value (strings get quoted).  Quote
escaping inside string literals is simplified (no escaping); no claim
evaluates `repr` on a value containing quotes. -/
def pyRepr : JValue → String
  | .null => "None"
  | .bool true => "True"
  | .bool false => "False"
  | .num n => toString n
  | .str s => "\x27" ++ s ++ "\x27"
  | .arr xs => "[" ++ pyReprSeq xs ++ "]"
  | .obj fs => "\x7b" ++ pyReprFields fs ++ "\x7d"

/-- Comma-joined `repr`s of the elements of a Python list. -/
def pyReprSeq : List JValue → String
  | [] => ""
  | [x] => pyRepr x
  | x :: y :: rest => pyRepr x ++ ", " ++ pyReprSeq (y :: rest)

/-- Comma-joined `'key': repr(value)` entries of a Python dict. -/
def pyReprFields : List (String × JValue) → String
  | [] => ""
  | [(k, v)] => "\x27" ++ k ++ "\x27: " ++ pyRepr v
  | (k, v) :: y :: rest => "\x27" ++ k ++ "\x27: " ++ pyRepr v ++ ", " ++ pyReprFields (y :: rest)
end

/-- Python `str()` applied to a JSON-like value: the identity on
strings, `repr` on everything else (`str(None) = "None"`,
`str(True) = "True"`, `str(3) = "3"`, `str([1]) = "[1]"`, ...). -/
def pyStr : JValue → String
  | .str s => s
  | v => pyRepr v

/-- The `Project` dataclass of `models.py`.  Python fields are
dynamically typed: `from_dict` stores whatever the raw dict holds, so
every field other than `path` is a `JValue`.  Defaults mirror the
dataclass `field(default_factory=...)` defaults. -/
structure Project where
  path : String
  allowed_tools : JValue := .arr []
  history : JValue := .arr []
  mcp_servers : JValue := .obj []
  enabled_mcpjson_servers : JValue := .arr []
  disabled_mcpjson_servers : JValue := .arr []
  enable_all_project_mcp_servers : JValue := .bool false
  has_trust_dialog_accepted : JValue := .bool false
  ignore_patterns : JValue := .arr []
  project_onboarding_seen_count : JValue := .num 0
  has_claude_md_external_includes_approved : JValue := .bool false
  has_claude_md_external_includes_warning_shown : JValue := .bool false
  dont_crawl_directory : JValue := .bool false
  mcp_context_uris : JValue := .arr []

namespace Project

/-- Model of `Project.to_dict` (models.py:51-67): the wire-format dict, keys in
source order. -/
def to_dict (p : Project) : List (String × JValue) :=
  [ ("allowedTools", p.allowed_tools),
    ("history", p.history),
    ("mcpServers", p.mcp_servers),
    ("enabledMcpjsonServers", p.enabled_mcpjson_servers),
    ("disabledMcpjsonServers", p.disabled_mcpjson_servers),
    ("enableAllProjectMcpServers", p.enable_all_project_mcp_servers),
    ("hasTrustDialogAccepted", p.has_trust_dialog_accepted),
    ("ignorePatterns", p.ignore_patterns),
    ("projectOnboardingSeenCount", p.project_onboarding_seen_count),
    ("hasClaudeMdExternalIncludesApproved", p.has_claude_md_external_includes_approved),
    ("hasClaudeMdExternalIncludesWarningShown", p.has_claude_md_external_includes_warning_shown),
    ("dontCrawlDirectory", p.dont_crawl_directory),
    ("mcpContextUris", p.mcp_context_uris) ]

/-- Model of `Project.from_dict` (models.py:69-91): `data.get(key, default)` for
each field.  Total: absent keys fall back to the documented defaults. -/
def from_dict (path : String) (data : List (String × JValue)) : Project where
  path := path
  allowed_tools := dictGet data "allowedTools" (.arr [])
  history := dictGet data "history" (.arr [])
  mcp_servers := dictGet data "mcpServers" (.obj [])
  enabled_mcpjson_servers := dictGet data "enabledMcpjsonServers" (.arr [])
  disabled_mcpjson_servers := dictGet data "disabledMcpjsonServers" (.arr [])
  enable_all_project_mcp_servers := dictGet data "enableAllProjectMcpServers" (.bool false)
  has_trust_dialog_accepted := dictGet data "hasTrustDialogAccepted" (.bool false)
  ignore_patterns := dictGet data "ignorePatterns" (.arr [])
  project_onboarding_seen_count := dictGet data "projectOnboardingSeenCount" (.num 0)
  has_claude_md_external_includes_approved :=
    dictGet data "hasClaudeMdExternalIncludesApproved" (.bool false)
  has_claude_md_external_includes_warning_shown :=
    dictGet data "hasClaudeMdExternalIncludesWarningShown" (.bool false)
  dont_crawl_directory := dictGet data "dontCrawlDirectory" (.bool false)
  mcp_context_uris := dictGet data "mcpContextUris" (.arr [])

/-- Model of `Project.last_accessed` (models.py:35-40).  Result layering:
`none` = an uncaught Python exception (the last history record is not a
mapping, so `.get` raises `AttributeError`); `some none` = Python `None`
(empty history); `some (some s)` = the string `s`.  A `history` field
that is not a list cannot arise for well-typed projects and is mapped to
the exception case. -/
def last_accessed (p : Project) : Option (Option String) :=
  match p.history with
  | .arr [] => some none
  | .arr hs =>
      match hs.getLast? with
      | some (.obj rec) => some (some (pyStr (dictGet rec "display" (.str "N/A"))))
      | _ => none
  | _ => none

/-- Boolean check that a list of JSON values is all strings. -/
def allStr : List JValue → Bool
  | [] => true
  | .str _ :: rest => allStr rest
  | _ => false

/-- Boolean check that a list of JSON values is all objects (mappings). -/
def allObj : List JValue → Bool
  | [] => true
  | .obj _ :: rest => allObj rest
  | _ => false

/-- All fields well-typed per the spec's data model (§3): string lists
for the list-valued fields, a mapping for `mcpServers`, a list of
records for `history`, booleans for the flags, a non-negative integer
counter. -/
def wellTyped (p : Project) : Bool :=
  (match p.allowed_tools with | .arr xs => allStr xs | _ => false) &&
  (match p.history with | .arr xs => allObj xs | _ => false) &&
  (match p.mcp_servers with | .obj _ => true | _ => false) &&
  (match p.enabled_mcpjson_servers with | .arr xs => allStr xs | _ => false) &&
  (match p.disabled_mcpjson_servers with | .arr xs => allStr xs | _ => false) &&
  (match p.enable_all_project_mcp_servers with | .bool _ => true | _ => false) &&
  (match p.has_trust_dialog_accepted with | .bool _ => true | _ => false) &&
  (match p.ignore_patterns with | .arr xs => allStr xs | _ => false) &&
  (match p.project_onboarding_seen_count with | .num n => 0 ≤ n | _ => false) &&
  (match p.has_claude_md_external_includes_approved with | .bool _ => true | _ => false) &&
  (match p.has_claude_md_external_includes_warning_shown with | .bool _ => true | _ => false) &&
  (match p.dont_crawl_directory with | .bool _ => true | _ => false) &&
  (match p.mcp_context_uris with | .arr xs => allStr xs | _ => false)

end Project


/-- The bytes of one file: either they parse as the JSON value `v`, or
`json.load` raises on them. -/
inductive FileContent where
  | json (v : JValue)
  | invalid (s : String)

/-- Holds (as `true`) iff the bytes parse as a JSON object. -/
def FileContent.isValidObj : FileContent → Bool
  | .json (.obj _) => true
  | _ => false

/-- A timestamp as produced by `datetime.now()`, at the resolution used
by the backup filename format `%Y%m%d_%H%M%S_%f`. -/
structure Timestamp where
  year : Nat
  month : Nat
  day : Nat
  hour : Nat
  minute : Nat
  second : Nat
  micro : Nat

/-- Field ranges under which `strftime` emits fixed-width zero-padded
numbers (`%Y` four digits, the rest two, `%f` six). -/
def Timestamp.inRange (t : Timestamp) : Prop :=
  1000 ≤ t.year ∧ t.year < 10 ^ 4 ∧ t.month < 10 ^ 2 ∧ t.day < 10 ^ 2 ∧
    t.hour < 10 ^ 2 ∧ t.minute < 10 ^ 2 ∧ t.second < 10 ^ 2 ∧ t.micro < 10 ^ 6

instance (t : Timestamp) : Decidable t.inRange := by
  unfold Timestamp.inRange; infer_instance

/-- Chronological (calendar) strict order on timestamps: lexicographic
on year, month, day, hour, minute, second, microsecond. -/
def Timestamp.chronLt (t u : Timestamp) : Prop :=
  t.year < u.year ∨ (t.year = u.year ∧
    (t.month < u.month ∨ (t.month = u.month ∧
      (t.day < u.day ∨ (t.day = u.day ∧
        (t.hour < u.hour ∨ (t.hour = u.hour ∧
          (t.minute < u.minute ∨ (t.minute = u.minute ∧
            (t.second < u.second ∨ (t.second = u.second ∧
              t.micro < u.micro)))))))))))

instance (t u : Timestamp) : Decidable (t.chronLt u) := by
  unfold Timestamp.chronLt; infer_instance

/-- The digit character for `d < 10`. -/
def digitChar (d : Nat) : Char := Char.ofNat (48 + d)

/-- The number `n` rendered as exactly `w` decimal digits, most significant first
(zero-padded), as `strftime` renders each numeric field. -/
def padNum : Nat → Nat → List Char
  | 0, _ => []
  | w + 1, n => digitChar (n / 10 ^ w) :: padNum w (n % 10 ^ w)

/-- The characters of `strftime("%Y%m%d_%H%M%S_%f")`. -/
def tsChars (t : Timestamp) : List Char :=
  padNum 4 t.year ++ (padNum 2 t.month ++ (padNum 2 t.day ++ (['_'] ++
    (padNum 2 t.hour ++ (padNum 2 t.minute ++ (padNum 2 t.second ++ (['_'] ++
      padNum 6 t.micro)))))))

/-- The backup filename `f"claude_{timestamp}.json"` created by
`create_backup` (config.py:105-106). -/
def backupName (t : Timestamp) : String :=
  "claude_" ++ String.mk (tsChars t) ++ ".json"

/-- The characters of `strftime("%Y%m%d_%H%M%S")` (older backup format,
no microseconds). -/
def oldTsChars (t : Timestamp) : List Char :=
  padNum 4 t.year ++ (padNum 2 t.month ++ (padNum 2 t.day ++ (['_'] ++
    (padNum 2 t.hour ++ (padNum 2 t.minute ++ padNum 2 t.second)))))

/-- The older backup filename format `claude_<YYYYMMDD>_<HHMMSS>.json`
(no microseconds), still matched by the `claude_*.json` glob. -/
def oldBackupName (t : Timestamp) : String :=
  "claude_" ++ String.mk (oldTsChars t) ++ ".json"

/-- Chronological strict order at second resolution (the resolution of
the older backup filename format): lexicographic on year through
second. -/
def Timestamp.secChronLt (t u : Timestamp) : Prop :=
  t.year < u.year ∨ (t.year = u.year ∧
    (t.month < u.month ∨ (t.month = u.month ∧
      (t.day < u.day ∨ (t.day = u.day ∧
        (t.hour < u.hour ∨ (t.hour = u.hour ∧
          (t.minute < u.minute ∨ (t.minute = u.minute ∧
            t.second < u.second)))))))))

/-- The timestamp collapsed to a single natural number whose numeric
order is the chronological order (under `inRange` bounds). -/
def Timestamp.key (t : Timestamp) : Nat :=
  (((((t.year * 100 + t.month) * 100 + t.day) * 100 + t.hour) * 100 +
    t.minute) * 100 + t.second) * 1000000 + t.micro

/-- Python's string `<` (lexicographic by code point), as `sorted()`
compares `str`s: executable structural recursion over the characters.
Equivalent to Mathlib's `<` on `String` (`strLt_iff_lt` below). -/
def strLtb : List Char → List Char → Bool
  | [], [] => false
  | [], _ :: _ => true
  | _ :: _, [] => false
  | c :: cs, d :: ds => if c < d then true else if d < c then false else strLtb cs ds

/-- Python's string `≤`, the order `sorted()` sorts by. -/
def strLe (a b : String) : Prop := strLtb b.data a.data = false

instance : DecidableRel strLe :=
  fun a b => instDecidableEqBool (strLtb b.data a.data) false

/-- The filesystem and in-memory state owned by `ClaudeConfigManager`:
the in-memory `config_data` dict, the file at `config_path`, the single
temp-file slot `config_path.with_suffix(".tmp")`, and the backup
directory listing (filename to content, in directory order). -/
structure ManagerState where
  configData : List (String × JValue)
  configFile : Option FileContent
  tempFile : Option FileContent
  backups : List (String × FileContent)

namespace ClaudeConfigManager

/-- Model of `backup_dir.glob("claude_*.json")`: a filename matches iff it starts
with `claude_` and ends with `.json`. -/
def matchesGlob (n : String) : Bool :=
  "claude_".data.isPrefixOf n.data && ".json".data.isSuffixOf n.data

/-- The backup-directory filenames matching the glob, in listing order
(Python sorts them before use, so listing order is irrelevant). -/
def globNames (s : ManagerState) : List String :=
  (s.backups.map Prod.fst).filter matchesGlob

/-- Model of `load_config` (config.py:31-59).  Missing file and JSON parse errors
return `False` before `self.config_data` is assigned; a parsed non-object
is assigned, then detected and replaced by `{}`. -/
def load_config (s : ManagerState) : ManagerState × Bool :=
  match s.configFile with
  | none => (s, false)
  | some (.invalid _) => (s, false)
  | some (.json v) =>
      match v with
      | .obj l => ({ s with configData := l }, true)
      | _ => ({ s with configData := [] }, false)

/-- Delete the files named in `doomed`, in order, stopping at the first
name whose `unlink` raises (config.py:128-130 has no per-file handler:
the exception aborts the loop).  Returns the surviving listing and
whether the loop completed without raising. -/
def unlinkAll (bs : List (String × FileContent)) (doomed : List String)
    (unlinkFails : String → Bool) : List (String × FileContent) × Bool :=
  match doomed with
  | [] => (bs, true)
  | d :: rest =>
      if unlinkFails d then (bs, false)
      else unlinkAll (bs.filter (fun kv => !decide (kv.1 = d))) rest unlinkFails

/-- Model of `_clean_old_backups` (config.py:120-130): sort the glob results,
delete all but the last `keep_count`.  The Python slice `backups[:-keep_count]`
is empty when `keep_count = 0`.  The boolean is `false` when an `unlink`
raised (the exception propagates to the caller). -/
def clean_old_backups (s : ManagerState) (keep_count : Nat)
    (unlinkFails : String → Bool) : ManagerState × Bool :=
  let bs := List.insertionSort strLe (globNames s)
  if bs.length > keep_count then
    let doomed := if keep_count = 0 then [] else bs.take (bs.length - keep_count)
    let r := unlinkAll s.backups doomed unlinkFails
    ({ s with backups := r.1 }, r.2)
  else (s, true)

/-- Model of `create_backup` (config.py:95-118): `None` when the config file does
not exist; otherwise copy it into the backup directory under the
timestamped name (overwriting a same-named file), then rotate.  An
exception escaping `_clean_old_backups` is caught here and turns the
result into `None`. -/
def create_backup (s : ManagerState) (now : Timestamp)
    (unlinkFails : String → Bool) : ManagerState × Option String :=
  match s.configFile with
  | none => (s, none)
  | some content =>
      let name := backupName now
      let s1 := { s with backups := setEntry s.backups name content }
      let r := clean_old_backups s1 10 unlinkFails
      if r.2 then (r.1, some name) else (r.1, none)

/-- Injectable write faults for `save_config`.  `dumpFail = some c`
means `json.dump` raised after the temp file was created holding bytes
`c`; `validateFail` means re-reading the temp file raised;
`moveFail` means `shutil.move` raised (same-directory rename: it either
fully happens or leaves both files in place). -/
structure SaveFaults where
  dumpFail : Option FileContent := none
  validateFail : Bool := false
  moveFail : Bool := false

/-- Model of `save_config` (config.py:61-93): optional backup, write the
in-memory dict to the temp file, re-parse it, atomically move it over
`config_path`.  Any exception is caught; the handler unlinks the temp
file if it exists and returns `False`. -/
def save_config (s : ManagerState) (create_backup? : Bool) (now : Timestamp)
    (unlinkFails : String → Bool) (sf : SaveFaults) : ManagerState × Bool :=
  let s0 := if create_backup? then (create_backup s now unlinkFails).1 else s
  match sf.dumpFail with
  | some written =>
      -- json.dump raised; the handler sees the temp file and unlinks it
      let s1 := { s0 with tempFile := some written }
      ({ s1 with tempFile := none }, false)
  | none =>
      let s1 := { s0 with tempFile := some (.json (.obj s0.configData)) }
      if sf.validateFail then ({ s1 with tempFile := none }, false)
      else if sf.moveFail then ({ s1 with tempFile := none }, false)
      else ({ s1 with tempFile := none, configFile := some (.json (.obj s0.configData)) }, true)

/-- Model of `get_projects` (config.py:132-141).  A per-project raw value that is
not a mapping would raise inside `Project.from_dict` in Python; no claim
exercises that case, and it is mapped to `from_dict` over an empty dict
here (see `update_project` for where non-mapping shapes are modelled
faithfully). -/
def get_projects (s : ManagerState) : List (String × Project) :=
  let raw : List (String × JValue) :=
    match dictGet s.configData "projects" (.obj []) with
    | .obj l => l
    | _ => []
  raw.map (fun pd =>
    let data : List (String × JValue) := match pd.2 with | .obj l => l | _ => []
    (pd.1, Project.from_dict pd.1 data))

/-- Model of `update_project` (config.py:157-170): ensure the `projects` key
exists, then write `project.to_dict()` under `project.path`.  `none`
models the uncaught `TypeError` Python raises when the existing
`projects` value is not a dict (`config_data["projects"][path] = ...`). -/
def update_project (s : ManagerState) (p : Project) : Option (ManagerState × Bool) :=
  let cd := if containsKey s.configData "projects" then s.configData
            else setEntry s.configData "projects" (.obj [])
  match dictGet cd "projects" (.obj []) with
  | .obj ps =>
      some ({ s with configData := setEntry cd "projects" (.obj (setEntry ps p.path (.obj p.to_dict))) }, true)
  | _ => none

/-- Model of `restore_from_backup` (config.py:203-234): `False` if the backup
file does not exist; otherwise copy its bytes over `config_path`
(before any validation), then reload and return the load's result. -/
def restore_from_backup (s : ManagerState) (name : String) : ManagerState × Bool :=
  match lookupEntry s.backups name with
  | none => (s, false)
  | some content => load_config { s with configFile := some content }

/-- Model of `get_backups` (config.py:236-242):
`sorted(backup_dir.glob("claude_*.json"), reverse=True)`. -/
def get_backups (s : ManagerState) : List String :=
  (List.insertionSort strLe (globNames s)).reverse

/-- Holds iff the file at `config_path`, when present, holds a valid
JSON object (the well-formedness the spec says is never violated). -/
def diskOk (s : ManagerState) : Bool :=
  match s.configFile with
  | none => true
  | some c => c.isValidObj

end ClaudeConfigManager

/-! ## Dictionary lemmas -/

theorem dictGet_of_not_mem {d : List (String × JValue)} {k : String} {dflt : JValue}
    (h : containsKey d k = false) : dictGet d k dflt = dflt := by
  induction d with
  | nil => rfl
  | cons kv rest ih =>
      simp only [containsKey, Bool.or_eq_false_iff, decide_eq_false_iff_not] at h
      simp only [dictGet, if_neg h.1]
      exact ih h.2

theorem lookupEntry_setEntry_self {β : Type} (d : List (String × β)) (k : String) (v : β) :
    lookupEntry (setEntry d k v) k = some v := by
  induction d with
  | nil => simp [setEntry, lookupEntry]
  | cons kv rest ih =>
      by_cases hk : kv.1 = k
      · simp [setEntry, lookupEntry, hk]
      · simp [setEntry, lookupEntry, hk, ih]

theorem lookupEntry_setEntry_ne {β : Type} (d : List (String × β)) {k k' : String} (v : β)
    (h : k' ≠ k) : lookupEntry (setEntry d k v) k' = lookupEntry d k' := by
  have hk' : ¬(k = k') := fun e => h e.symm
  induction d with
  | nil => simp [setEntry, lookupEntry, hk']
  | cons kv rest ih =>
      by_cases hk : kv.1 = k
      · have hne : ¬(kv.1 = k') := by rw [hk]; exact hk'
        simp [setEntry, lookupEntry, hk, hk', hne]
      · simp only [setEntry, if_neg hk]
        simp [lookupEntry, ih]

theorem containsKey_eq_isSome (d : List (String × JValue)) (k : String) :
    containsKey d k = (lookupEntry d k).isSome := by
  induction d with
  | nil => rfl
  | cons kv rest ih =>
      by_cases hk : kv.1 = k <;> simp [containsKey, lookupEntry, hk, ih]

theorem dictGet_eq_getD (d : List (String × JValue)) (k : String) (dflt : JValue) :
    dictGet d k dflt = (lookupEntry d k).getD dflt := by
  induction d with
  | nil => rfl
  | cons kv rest ih =>
      by_cases hk : kv.1 = k <;> simp [dictGet, lookupEntry, hk, ih]

/-! ## C2: Project round trip -/

/-- C2: for every valid Project value `p` (all fields well-typed per the
data model), `Project.from_dict(p.path, p.to_dict())` equals `p`
field-for-field.  (The proof is definitional: `to_dict` stores all 13
wire keys and `from_dict` reads each one back; the well-typedness
hypothesis is not even needed.) -/
theorem C2_project_round_trip (p : Project) (_h : p.wellTyped = true) :
    Project.from_dict p.path p.to_dict = p := rfl

theorem C2_project_round_trip_witness :
    Project.wellTyped { path := "/home/user/project1" } = true ∧
      Project.from_dict "/home/user/project1"
          (Project.to_dict { path := "/home/user/project1" }) =
        { path := "/home/user/project1" } :=
  ⟨by decide, C2_project_round_trip { path := "/home/user/project1" } (by decide)⟩

/-! ## C8: from_dict fills absent keys with documented defaults -/

/-- C8: for every path and every raw map missing any subset of the
documented project keys, `from_dict` succeeds (it is a total function by
construction, exactly like the Python code, which only calls
`data.get`) and fills each absent key with its documented default:
empty list for list-valued fields, empty mapping for `mcpServers`,
`False` for every boolean flag, `0` for `projectOnboardingSeenCount`. -/
theorem C8_from_dict_missing_defaults (path : String) (data : List (String × JValue)) :
    (containsKey data "allowedTools" = false →
      (Project.from_dict path data).allowed_tools = .arr []) ∧
    (containsKey data "history" = false →
      (Project.from_dict path data).history = .arr []) ∧
    (containsKey data "mcpServers" = false →
      (Project.from_dict path data).mcp_servers = .obj []) ∧
    (containsKey data "enabledMcpjsonServers" = false →
      (Project.from_dict path data).enabled_mcpjson_servers = .arr []) ∧
    (containsKey data "disabledMcpjsonServers" = false →
      (Project.from_dict path data).disabled_mcpjson_servers = .arr []) ∧
    (containsKey data "enableAllProjectMcpServers" = false →
      (Project.from_dict path data).enable_all_project_mcp_servers = .bool false) ∧
    (containsKey data "hasTrustDialogAccepted" = false →
      (Project.from_dict path data).has_trust_dialog_accepted = .bool false) ∧
    (containsKey data "ignorePatterns" = false →
      (Project.from_dict path data).ignore_patterns = .arr []) ∧
    (containsKey data "projectOnboardingSeenCount" = false →
      (Project.from_dict path data).project_onboarding_seen_count = .num 0) ∧
    (containsKey data "hasClaudeMdExternalIncludesApproved" = false →
      (Project.from_dict path data).has_claude_md_external_includes_approved = .bool false) ∧
    (containsKey data "hasClaudeMdExternalIncludesWarningShown" = false →
      (Project.from_dict path data).has_claude_md_external_includes_warning_shown = .bool false) ∧
    (containsKey data "dontCrawlDirectory" = false →
      (Project.from_dict path data).dont_crawl_directory = .bool false) ∧
    (containsKey data "mcpContextUris" = false →
      (Project.from_dict path data).mcp_context_uris = .arr []) :=
  ⟨fun h => dictGet_of_not_mem h, fun h => dictGet_of_not_mem h,
   fun h => dictGet_of_not_mem h, fun h => dictGet_of_not_mem h,
   fun h => dictGet_of_not_mem h, fun h => dictGet_of_not_mem h,
   fun h => dictGet_of_not_mem h, fun h => dictGet_of_not_mem h,
   fun h => dictGet_of_not_mem h, fun h => dictGet_of_not_mem h,
   fun h => dictGet_of_not_mem h, fun h => dictGet_of_not_mem h,
   fun h => dictGet_of_not_mem h⟩

theorem C8_from_dict_missing_defaults_witness :
    containsKey [] "allowedTools" = false ∧
      (Project.from_dict "/p" ([] : List (String × JValue))).allowed_tools = .arr [] :=
  ⟨rfl, (C8_from_dict_missing_defaults "/p" []).1 rfl⟩

/-! ## C10: last_accessed fallback -/

/-- C10: for every Project whose history is a non-empty list whose last
record is a mapping without a `display` key, `last_accessed` returns the
literal string `"N/A"` (Python `str(history[-1].get("display", "N/A"))`
with the default taken), not an absent value; and `last_accessed` is
Python `None` exactly when the history list is empty. -/
theorem C10_last_accessed_fallback (p : Project) (hs : List JValue)
    (hhist : p.history = .arr hs) :
    (∀ rec, hs.getLast? = some (.obj rec) → containsKey rec "display" = false →
        p.last_accessed = some (some "N/A")) ∧
      (p.last_accessed = some none ↔ hs = []) := by
  cases hs with
  | nil =>
      refine ⟨fun rec hlast _ => by simp at hlast, ?_⟩
      simp [Project.last_accessed, hhist]
  | cons a t =>
      constructor
      · intro rec hlast hdisp
        simp only [Project.last_accessed, hhist, hlast]
        rw [dictGet_of_not_mem hdisp]
        rfl
      · simp only [iff_false, reduceCtorEq, ne_eq, not_false_eq_true]
        obtain ⟨x, hx⟩ : ∃ x, (a :: t).getLast? = some x := by
          cases h : (a :: t).getLast? with
          | none => simp at h
          | some x => exact ⟨x, rfl⟩
        cases x <;> simp [Project.last_accessed, hhist, hx]

theorem C10_last_accessed_fallback_witness :
    ({ path := "/p", history := .arr [.obj []] } : Project).history = .arr [.obj []] ∧
      Project.last_accessed { path := "/p", history := .arr [.obj []] } = some (some "N/A") :=
  ⟨rfl, (C10_last_accessed_fallback { path := "/p", history := .arr [.obj []] }
    [.obj []] rfl).1 [] rfl rfl⟩

/-! ## Frame lemmas for the manager operations -/

namespace ClaudeConfigManager

theorem clean_preserves_files (s : ManagerState) (k : Nat) (uf : String → Bool) :
    (clean_old_backups s k uf).1.configFile = s.configFile ∧
      (clean_old_backups s k uf).1.tempFile = s.tempFile ∧
      (clean_old_backups s k uf).1.configData = s.configData := by
  unfold clean_old_backups
  dsimp only
  split <;> exact ⟨rfl, rfl, rfl⟩

theorem create_backup_preserves_files (s : ManagerState) (now : Timestamp)
    (uf : String → Bool) :
    (create_backup s now uf).1.configFile = s.configFile ∧
      (create_backup s now uf).1.tempFile = s.tempFile ∧
      (create_backup s now uf).1.configData = s.configData := by
  unfold create_backup
  obtain ⟨cd, cf, tf, bk⟩ := s
  cases cf with
  | none => exact ⟨rfl, rfl, rfl⟩
  | some c =>
      dsimp only
      split <;> exact clean_preserves_files _ 10 uf

/-! ## C1: save is atomic under write failure -/

/-- C1: if `save_config`'s re-validation parse of the temporary file
fails, or any step of the write fails after the temporary file was
created (the `json.dump` itself, the validation read, or the final
`shutil.move`), then save returns `False`, the temporary file is
removed by the exception handler, and the bytes of the original
configuration file at `config_path` are unchanged. -/
theorem C1_save_atomic_under_failure (s : ManagerState) (cb : Bool) (now : Timestamp)
    (uf : String → Bool) (sf : SaveFaults)
    (hfail : sf.dumpFail ≠ none ∨ sf.validateFail = true ∨ sf.moveFail = true) :
    (save_config s cb now uf sf).2 = false ∧
      (save_config s cb now uf sf).1.tempFile = none ∧
      (save_config s cb now uf sf).1.configFile = s.configFile := by
  have hcfg : (if cb then (create_backup s now uf).1 else s).configFile = s.configFile := by
    cases cb with
    | true => exact (create_backup_preserves_files s now uf).1
    | false => rfl
  unfold save_config
  obtain ⟨df, vf, mf⟩ := sf
  cases df with
  | some written => exact ⟨rfl, rfl, hcfg⟩
  | none =>
      cases vf with
      | true => exact ⟨rfl, rfl, hcfg⟩
      | false =>
          cases mf with
          | true => exact ⟨rfl, rfl, hcfg⟩
          | false =>
              rcases hfail with h | h | h <;> simp at h

theorem C1_save_atomic_under_failure_witness :
    (({ dumpFail := none, validateFail := true, moveFail := false } : SaveFaults).dumpFail ≠ none ∨
        ({ dumpFail := none, validateFail := true, moveFail := false } : SaveFaults).validateFail = true ∨
        ({ dumpFail := none, validateFail := true, moveFail := false } : SaveFaults).moveFail = true) ∧
      (save_config ⟨[], some (.json (.obj [])), none, []⟩ false ⟨2024, 1, 1, 0, 0, 0, 0⟩
          (fun _ => false) { dumpFail := none, validateFail := true, moveFail := false }).2 = false ∧
      (save_config ⟨[], some (.json (.obj [])), none, []⟩ false ⟨2024, 1, 1, 0, 0, 0, 0⟩
          (fun _ => false) { dumpFail := none, validateFail := true, moveFail := false }).1.tempFile = none ∧
      (save_config ⟨[], some (.json (.obj [])), none, []⟩ false ⟨2024, 1, 1, 0, 0, 0, 0⟩
          (fun _ => false) { dumpFail := none, validateFail := true, moveFail := false }).1.configFile =
        (⟨[], some (.json (.obj [])), none, []⟩ : ManagerState).configFile :=
  ⟨Or.inr (Or.inl rfl),
    C1_save_atomic_under_failure ⟨[], some (.json (.obj [])), none, []⟩ false
      ⟨2024, 1, 1, 0, 0, 0, 0⟩ (fun _ => false)
      { dumpFail := none, validateFail := true, moveFail := false } (Or.inr (Or.inl rfl))⟩

end ClaudeConfigManager

namespace ClaudeConfigManager

/-! ## C3: load failure and in-memory reset -/

/-- A prior in-memory state holding one project, with no file on disk. -/
def c3PriorState : ManagerState :=
  { configData := [("projects", .obj [("/p", .obj [])])],
    configFile := none, tempFile := none, backups := [] }

/-- C3 counterexample: the claim says that on *every* failure mode of
`load_config` the in-memory state is reset to empty.  With a missing
file and a non-empty prior in-memory state, `load_config` returns
`False` (config.py:38-40) but never touches `self.config_data`:
`get_projects` afterwards still returns the one stale project, not an
empty map. -/
theorem C3_counterexample :
    (load_config c3PriorState).2 = false ∧
      (get_projects (load_config c3PriorState).1).length = 1 :=
  ⟨rfl, rfl⟩

/-- C3 (amended): `load_config` reports failure for all three failure
modes (missing file, invalid JSON, top-level value not an object), but
the in-memory state is reset to empty only in the not-an-object case
(config.py:46-49); for a missing file and for a JSON parse error the
prior in-memory state is left unchanged (the `return False` at line 40
and the `except` at line 54 run before `self.config_data` is
reassigned). -/
theorem C3_load_failure_modes (s : ManagerState) :
    (s.configFile = none → load_config s = (s, false)) ∧
      (∀ str, s.configFile = some (.invalid str) → load_config s = (s, false)) ∧
      (∀ v, s.configFile = some (.json v) → (∀ l, v ≠ .obj l) →
        load_config s = ({ s with configData := [] }, false) ∧
          get_projects (load_config s).1 = []) := by
  refine ⟨fun h => by simp [load_config, h], fun str h => by simp [load_config, h], ?_⟩
  intro v hv hno
  cases v with
  | obj l => exact absurd rfl (hno l)
  | null => exact ⟨by simp [load_config, hv], by simp [load_config, hv]; rfl⟩
  | bool b => exact ⟨by simp [load_config, hv], by simp [load_config, hv]; rfl⟩
  | num n => exact ⟨by simp [load_config, hv], by simp [load_config, hv]; rfl⟩
  | str st => exact ⟨by simp [load_config, hv], by simp [load_config, hv]; rfl⟩
  | arr xs => exact ⟨by simp [load_config, hv], by simp [load_config, hv]; rfl⟩

theorem C3_load_failure_modes_witness :
    (c3PriorState.configFile = none) ∧ load_config c3PriorState = (c3PriorState, false) :=
  ⟨rfl, (C3_load_failure_modes c3PriorState).1 rfl⟩

/-! ## C9: update_project writes one entry and nothing else -/

/-- The in-memory `projects` value, when present, is a dict (the shape
`update_project` needs to subscript it without raising). -/
def projectsShapeOk (s : ManagerState) : Bool :=
  match lookupEntry s.configData "projects" with
  | none => true
  | some (.obj _) => true
  | some _ => false

/-- The in-memory raw `projects` map (`config_data.get("projects", {})`). -/
def projectsRaw (s : ManagerState) : List (String × JValue) :=
  match dictGet s.configData "projects" (.obj []) with
  | .obj l => l
  | _ => []

/-- A state whose `projects` key holds a string: reachable by loading
the valid JSON object file `{"projects": "boom"}`. -/
def c9BadState : ManagerState :=
  { configData := [("projects", .str "boom")],
    configFile := none, tempFile := none, backups := [] }

/-- C9 counterexample: the claim says `update_project` returns success
for *every* store state.  On a state whose `projects` key holds a
non-dict (loadable from the valid JSON file `{"projects": "boom"}`),
Python's `config_data["projects"][project.path] = ...` raises an
uncaught `TypeError` (modelled as `none`) instead of returning `True`. -/
theorem C9_counterexample : update_project c9BadState { path := "/p" } = none := rfl

/-- C9 (amended): for every store state in which the `projects` key is
absent or maps to a dict, and every Project `p`, `update_project p`
returns success, sets the in-memory `projects` entry at key `p.path` to
`p.to_dict()` (inserting the key, and the `projects` map itself, if
absent), and changes nothing else: every other `projects` entry, every
other top-level field, and the on-disk files are unchanged. -/
theorem C9_update_project_frame (s : ManagerState) (p : Project)
    (h : projectsShapeOk s = true) :
    ∃ s', update_project s p = some (s', true) ∧
      lookupEntry (projectsRaw s') p.path = some (.obj p.to_dict) ∧
      (∀ q, q ≠ p.path → lookupEntry (projectsRaw s') q = lookupEntry (projectsRaw s) q) ∧
      (∀ k, k ≠ "projects" → lookupEntry s'.configData k = lookupEntry s.configData k) ∧
      s'.configFile = s.configFile ∧ s'.tempFile = s.tempFile ∧ s'.backups = s.backups := by
  unfold update_project
  cases hck : containsKey s.configData "projects" with
  | false =>
      have hl : lookupEntry s.configData "projects" = none := by
        rw [containsKey_eq_isSome] at hck
        exact Option.not_isSome_iff_eq_none.mp (by simp [hck])
      have hget : dictGet (setEntry s.configData "projects" (.obj [])) "projects" (.obj []) =
          .obj [] := by
        rw [dictGet_eq_getD, lookupEntry_setEntry_self]; rfl
      have hraw : projectsRaw s = [] := by
        unfold projectsRaw
        rw [dictGet_eq_getD, hl]
        rfl
      have hr : projectsRaw { s with configData := setEntry (setEntry s.configData "projects" (.obj [])) "projects" (.obj (setEntry [] p.path (.obj p.to_dict))) } =
          setEntry [] p.path (.obj p.to_dict) := by
        unfold projectsRaw
        rw [dictGet_eq_getD, lookupEntry_setEntry_self]
        rfl
      refine ⟨{ s with configData := setEntry (setEntry s.configData "projects" (.obj [])) "projects" (.obj (setEntry [] p.path (.obj p.to_dict))) },
        by simp [hget], ?_, ?_, ?_, rfl, rfl, rfl⟩
      · rw [hr]
        exact lookupEntry_setEntry_self [] p.path (JValue.obj p.to_dict)
      · intro q hq
        rw [hr, hraw]
        simp [setEntry, lookupEntry, Ne.symm hq]
      · intro k hk
        rw [lookupEntry_setEntry_ne _ _ hk, lookupEntry_setEntry_ne _ _ hk]
  | true =>
      have hl : ∃ ps, lookupEntry s.configData "projects" = some (.obj ps) := by
        unfold projectsShapeOk at h
        cases hl : lookupEntry s.configData "projects" with
        | none =>
            rw [containsKey_eq_isSome, hl] at hck
            simp at hck
        | some v =>
            cases v with
            | obj ps => exact ⟨ps, rfl⟩
            | null => rw [hl] at h; simp at h
            | bool b => rw [hl] at h; simp at h
            | num n => rw [hl] at h; simp at h
            | str st => rw [hl] at h; simp at h
            | arr xs => rw [hl] at h; simp at h
      obtain ⟨ps, hl⟩ := hl
      have hget : dictGet s.configData "projects" (.obj []) = .obj ps := by
        rw [dictGet_eq_getD, hl]; rfl
      have hraw : projectsRaw s = ps := by
        unfold projectsRaw; rw [hget]
      have hr : projectsRaw { s with configData := setEntry s.configData "projects" (.obj (setEntry ps p.path (.obj p.to_dict))) } =
          setEntry ps p.path (.obj p.to_dict) := by
        unfold projectsRaw
        rw [dictGet_eq_getD, lookupEntry_setEntry_self]
        rfl
      refine ⟨{ s with configData := setEntry s.configData "projects" (.obj (setEntry ps p.path (.obj p.to_dict))) },
        by simp [hget], ?_, ?_, ?_, rfl, rfl, rfl⟩
      · rw [hr]
        exact lookupEntry_setEntry_self ps p.path (JValue.obj p.to_dict)
      · intro q hq
        rw [hr, hraw]
        exact lookupEntry_setEntry_ne ps _ hq
      · intro k hk
        exact lookupEntry_setEntry_ne _ _ hk

theorem C9_update_project_frame_witness :
    projectsShapeOk ⟨[], none, none, []⟩ = true ∧
      ∃ s', update_project ⟨[], none, none, []⟩ { path := "/p" } = some (s', true) :=
  ⟨rfl, Exists.imp (fun _ hh => hh.1)
    (C9_update_project_frame ⟨[], none, none, []⟩ { path := "/p" } rfl)⟩

end ClaudeConfigManager

namespace ClaudeConfigManager

/-! ## C4: on-disk validity -/

theorem load_preserves_configFile (s : ManagerState) :
    (load_config s).1.configFile = s.configFile := by
  obtain ⟨cd, cf, tf, bk⟩ := s
  cases cf with
  | none => rfl
  | some c =>
      cases c with
      | invalid str => rfl
      | json v => cases v <;> rfl

/-- A state whose disk file is a valid JSON object but whose backup
directory holds a malformed backup file. -/
def c4State : ManagerState :=
  { configData := [], configFile := some (.json (.obj [])), tempFile := none,
    backups := [("claude_20240101_000000_000000.json", .invalid "oops")] }

/-- C4 counterexample: the claim says no core operation — including
`restore_from_backup` on a malformed backup — ever leaves the file at
`config_path` holding content that is not a valid JSON object.  But
`restore_from_backup` copies the backup's bytes over `config_path`
*before* any validation (config.py:222), so restoring a malformed
backup over a valid config file reports failure yet leaves the invalid
bytes on disk. -/
theorem C4_counterexample :
    diskOk c4State = true ∧
      (restore_from_backup c4State "claude_20240101_000000_000000.json").2 = false ∧
      diskOk (restore_from_backup c4State "claude_20240101_000000_000000.json").1 = false :=
  ⟨rfl, rfl, rfl⟩

/-- C4 (amended): `load_config`, `save_config` (with any combination of
injected write faults), `create_backup`, and `_clean_old_backups` never
change the config file to anything but a valid JSON object; and
`restore_from_backup` preserves on-disk validity provided the named
backup's content is itself a valid JSON object.  (Restoring a malformed
backup is the exception the counterexample exhibits: the malformed
bytes are copied over `config_path` verbatim.) -/
theorem C4_disk_validity (s : ManagerState) (hok : diskOk s = true) :
    diskOk (load_config s).1 = true ∧
      (∀ cb now uf sf, diskOk (save_config s cb now uf sf).1 = true) ∧
      (∀ now uf, diskOk (create_backup s now uf).1 = true) ∧
      (∀ k uf, diskOk (clean_old_backups s k uf).1 = true) ∧
      (∀ name, (∀ c, lookupEntry s.backups name = some c → c.isValidObj = true) →
        diskOk (restore_from_backup s name).1 = true) := by
  have hdisk : ∀ s' : ManagerState, s'.configFile = s.configFile → diskOk s' = diskOk s := by
    intro s' h
    unfold diskOk
    rw [h]
  refine ⟨?_, ?_, ?_, ?_, ?_⟩
  · rw [hdisk _ (load_preserves_configFile s)]
    exact hok
  · intro cb now uf sf
    have hcfg : (if cb then (create_backup s now uf).1 else s).configFile = s.configFile := by
      cases cb with
      | true => exact (create_backup_preserves_files s now uf).1
      | false => rfl
    obtain ⟨df, vf, mf⟩ := sf
    cases df with
    | some written =>
        exact (hdisk _ hcfg).trans hok
    | none =>
        cases vf with
        | true => exact (hdisk _ hcfg).trans hok
        | false =>
            cases mf with
            | true => exact (hdisk _ hcfg).trans hok
            | false =>
                unfold save_config
                simp only [diskOk]
                rfl
  · intro now uf
    rw [hdisk _ (create_backup_preserves_files s now uf).1]
    exact hok
  · intro k uf
    rw [hdisk _ (clean_preserves_files s k uf).1]
    exact hok
  · intro name hval
    unfold restore_from_backup
    cases hl : lookupEntry s.backups name with
    | none => exact hok
    | some c =>
        have hv := hval c hl
        cases c with
        | invalid str => simp [FileContent.isValidObj] at hv
        | json v =>
            cases v with
            | obj l => simp [load_config, diskOk, FileContent.isValidObj]
            | null => simp [FileContent.isValidObj] at hv
            | bool b => simp [FileContent.isValidObj] at hv
            | num n => simp [FileContent.isValidObj] at hv
            | str st => simp [FileContent.isValidObj] at hv
            | arr xs => simp [FileContent.isValidObj] at hv

theorem C4_disk_validity_witness :
    diskOk ⟨[], some (.json (.obj [])), none, []⟩ = true ∧
      diskOk (load_config ⟨[], some (.json (.obj [])), none, []⟩).1 = true :=
  ⟨rfl, (C4_disk_validity ⟨[], some (.json (.obj [])), none, []⟩ rfl).1⟩

end ClaudeConfigManager

/-! ## Lexicographic order of timestamped backup filenames -/

theorem lex_cons_iff2 {α : Type} [LT α] {x y : α} {xs ys : List α} :
    List.Lex (· < ·) (x :: xs) (y :: ys) ↔ x < y ∨ (x = y ∧ List.Lex (· < ·) xs ys) := by
  constructor
  · intro h
    cases h with
    | rel h => exact Or.inl h
    | cons h => exact Or.inr ⟨rfl, h⟩
  · intro h
    rcases h with h | ⟨rfl, h⟩
    · exact List.Lex.rel h
    · exact List.Lex.cons h

theorem strLtb_iff_lex : ∀ (l1 l2 : List Char),
    (strLtb l1 l2 = true ↔ List.Lex (· < ·) l1 l2)
  | [], [] => by
      simp only [strLtb, Bool.false_eq_true, false_iff]
      exact List.Lex.not_nil_right _ _
  | [], c :: cs => by
      simp only [strLtb, true_iff]
      exact List.Lex.nil
  | c :: cs, [] => by
      simp only [strLtb, Bool.false_eq_true, false_iff]
      exact List.Lex.not_nil_right _ _
  | c :: cs, d :: ds => by
      rw [lex_cons_iff2]
      simp only [strLtb]
      by_cases h1 : c < d
      · simp [h1]
      · by_cases h2 : d < c
        · simp [h1, h2, ne_of_gt h2]
        · have heq : c = d := le_antisymm (le_of_not_lt h2) (le_of_not_lt h1)
          subst heq
          simp [h1, strLtb_iff_lex cs ds]

theorem strLt_iff_lt (a b : String) : (strLtb a.data b.data = true) ↔ a < b := by
  rw [String.lt_iff_toList_lt]
  exact strLtb_iff_lex a.data b.data

theorem strLe_iff_le (a b : String) : strLe a b ↔ a ≤ b := by
  unfold strLe
  constructor
  · intro h
    rw [← not_lt, ← strLt_iff_lt]
    simp [h]
  · intro h
    rw [← not_lt, ← strLt_iff_lt] at h
    simpa using h

instance : IsTotal String strLe :=
  ⟨fun a b => by
    rw [strLe_iff_le, strLe_iff_le]
    exact le_total a b⟩

instance : IsTrans String strLe :=
  ⟨fun a b c hab hbc => by
    rw [strLe_iff_le] at hab hbc ⊢
    exact le_trans hab hbc⟩

theorem lex_append_iff {α : Type} [LT α] {a c : List α} (b d : List α)
    (h : a.length = c.length) :
    List.Lex (· < ·) (a ++ b) (c ++ d) ↔
      List.Lex (· < ·) a c ∨ (a = c ∧ List.Lex (· < ·) b d) := by
  induction a generalizing c with
  | nil =>
      cases c with
      | nil => simp
      | cons y ys => simp at h
  | cons x xs ih =>
      cases c with
      | nil => simp at h
      | cons y ys =>
          simp only [List.cons_append]
          rw [lex_cons_iff2, lex_cons_iff2, ih (c := ys) (by simpa using h)]
          simp only [List.cons.injEq]
          tauto

theorem lex_irrefl {α : Type} [LT α] (hirr : ∀ x : α, ¬x < x) :
    ∀ l : List α, ¬List.Lex (· < ·) l l := by
  intro l
  induction l with
  | nil => intro h; cases h
  | cons x xs ih =>
      intro h
      cases h with
      | rel hr => exact hirr x hr
      | cons hc => exact ih hc

theorem digitChar_lt_iff {d e : Nat} (hd : d ≤ 9) (he : e ≤ 9) :
    (digitChar d < digitChar e ↔ d < e) := by
  interval_cases d <;> interval_cases e <;> decide

theorem digitChar_inj_iff {d e : Nat} (hd : d ≤ 9) (he : e ≤ 9) :
    (digitChar d = digitChar e ↔ d = e) := by
  interval_cases d <;> interval_cases e <;> decide

theorem length_padNum : ∀ (w n : Nat), (padNum w n).length = w
  | 0, _ => rfl
  | w + 1, n => by simp [padNum, length_padNum w]

theorem block_lt_iff {B q1 r1 q2 r2 : Nat} (_hB : 0 < B) (h1 : r1 < B) (h2 : r2 < B) :
    B * q1 + r1 < B * q2 + r2 ↔ (q1 < q2 ∨ (q1 = q2 ∧ r1 < r2)) := by
  constructor
  · intro h
    rcases Nat.lt_trichotomy q1 q2 with hq | hq | hq
    · exact Or.inl hq
    · subst hq
      exact Or.inr ⟨rfl, Nat.lt_of_add_lt_add_left h⟩
    · exfalso
      have hlt : B * q2 + r2 < B * q1 + r1 := by
        calc B * q2 + r2 < B * q2 + B := Nat.add_lt_add_left h2 _
          _ = B * (q2 + 1) := (Nat.mul_succ B q2).symm
          _ ≤ B * q1 := Nat.mul_le_mul (Nat.le_refl B) hq
          _ ≤ B * q1 + r1 := Nat.le_add_right _ _
      exact Nat.lt_asymm h hlt
  · intro h
    rcases h with hq | ⟨hq, hr⟩
    · calc B * q1 + r1 < B * q1 + B := Nat.add_lt_add_left h1 _
        _ = B * (q1 + 1) := (Nat.mul_succ B q1).symm
        _ ≤ B * q2 := Nat.mul_le_mul (Nat.le_refl B) hq
        _ ≤ B * q2 + r2 := Nat.le_add_right _ _
    · subst hq
      exact Nat.add_lt_add_left hr _

theorem padNum_lt_iff : ∀ (w n m : Nat), n < 10 ^ w → m < 10 ^ w →
    (List.Lex (· < ·) (padNum w n) (padNum w m) ↔ n < m)
  | 0, n, m, hn, hm => by
      rw [pow_zero] at hn hm
      simp only [padNum]
      constructor
      · intro h; cases h
      · intro h; omega
  | w + 1, n, m, hn, hm => by
      have hB : 0 < 10 ^ w := pow_pos (by norm_num) w
      have hdn : n / 10 ^ w ≤ 9 := by
        have h1 : n < 10 ^ w * 10 := by rw [← pow_succ]; exact hn
        have h2 := Nat.div_lt_of_lt_mul h1
        omega
      have hdm : m / 10 ^ w ≤ 9 := by
        have h1 : m < 10 ^ w * 10 := by rw [← pow_succ]; exact hm
        have h2 := Nat.div_lt_of_lt_mul h1
        omega
      have hrn : n % 10 ^ w < 10 ^ w := Nat.mod_lt _ hB
      have hrm : m % 10 ^ w < 10 ^ w := Nat.mod_lt _ hB
      simp only [padNum]
      rw [lex_cons_iff2, digitChar_lt_iff hdn hdm, digitChar_inj_iff hdn hdm,
        padNum_lt_iff w _ _ hrn hrm, ← block_lt_iff hB hrn hrm,
        Nat.div_add_mod, Nat.div_add_mod]

theorem padNum_eq_iff : ∀ (w n m : Nat), n < 10 ^ w → m < 10 ^ w →
    (padNum w n = padNum w m ↔ n = m)
  | 0, n, m, hn, hm => by
      rw [pow_zero] at hn hm
      simp only [padNum, true_iff]
      omega
  | w + 1, n, m, hn, hm => by
      have hB : 0 < 10 ^ w := pow_pos (by norm_num) w
      have hdn : n / 10 ^ w ≤ 9 := by
        have h1 : n < 10 ^ w * 10 := by rw [← pow_succ]; exact hn
        have h2 := Nat.div_lt_of_lt_mul h1
        omega
      have hdm : m / 10 ^ w ≤ 9 := by
        have h1 : m < 10 ^ w * 10 := by rw [← pow_succ]; exact hm
        have h2 := Nat.div_lt_of_lt_mul h1
        omega
      have hrn : n % 10 ^ w < 10 ^ w := Nat.mod_lt _ hB
      have hrm : m % 10 ^ w < 10 ^ w := Nat.mod_lt _ hB
      simp only [padNum, List.cons.injEq]
      rw [digitChar_inj_iff hdn hdm, padNum_eq_iff w _ _ hrn hrm]
      constructor
      · rintro ⟨h1, h2⟩
        rw [← Nat.div_add_mod n (10 ^ w), ← Nat.div_add_mod m (10 ^ w), h1, h2]
      · rintro rfl
        exact ⟨rfl, rfl⟩

theorem lex_pad_append_iff (w n m : Nat) (b d : List Char) :
    List.Lex (· < ·) (padNum w n ++ b) (padNum w m ++ d) ↔
      List.Lex (· < ·) (padNum w n) (padNum w m) ∨
        (padNum w n = padNum w m ∧ List.Lex (· < ·) b d) :=
  lex_append_iff b d (by simp [length_padNum])

theorem lex_sep_append_iff (b d : List Char) :
    List.Lex (· < ·) (['_'] ++ b) (['_'] ++ d) ↔ List.Lex (· < ·) b d := by
  rw [lex_append_iff b d rfl]
  have hsep : ¬List.Lex (· < ·) ['_'] ['_'] := lex_irrefl (fun c => lt_irrefl c) _
  simp [hsep]

theorem tsChars_lt_iff {t u : Timestamp} (ht : t.inRange) (hu : u.inRange) :
    (List.Lex (· < ·) (tsChars t) (tsChars u) ↔ t.chronLt u) := by
  obtain ⟨ht0, ht1, ht2, ht3, ht4, ht5, ht6, ht7⟩ := ht
  obtain ⟨hu0, hu1, hu2, hu3, hu4, hu5, hu6, hu7⟩ := hu
  unfold tsChars
  rw [lex_pad_append_iff, padNum_lt_iff 4 _ _ ht1 hu1, padNum_eq_iff 4 _ _ ht1 hu1,
    lex_pad_append_iff, padNum_lt_iff 2 _ _ ht2 hu2, padNum_eq_iff 2 _ _ ht2 hu2,
    lex_pad_append_iff, padNum_lt_iff 2 _ _ ht3 hu3, padNum_eq_iff 2 _ _ ht3 hu3,
    lex_sep_append_iff,
    lex_pad_append_iff, padNum_lt_iff 2 _ _ ht4 hu4, padNum_eq_iff 2 _ _ ht4 hu4,
    lex_pad_append_iff, padNum_lt_iff 2 _ _ ht5 hu5, padNum_eq_iff 2 _ _ ht5 hu5,
    lex_pad_append_iff, padNum_lt_iff 2 _ _ ht6 hu6, padNum_eq_iff 2 _ _ ht6 hu6,
    lex_sep_append_iff, padNum_lt_iff 6 _ _ ht7 hu7]
  unfold Timestamp.chronLt
  tauto

theorem oldTsChars_lt_iff {t u : Timestamp} (ht : t.inRange) (hu : u.inRange) :
    (List.Lex (· < ·) (oldTsChars t) (oldTsChars u) ↔ t.secChronLt u) := by
  obtain ⟨ht0, ht1, ht2, ht3, ht4, ht5, ht6, ht7⟩ := ht
  obtain ⟨hu0, hu1, hu2, hu3, hu4, hu5, hu6, hu7⟩ := hu
  unfold oldTsChars
  rw [lex_pad_append_iff, padNum_lt_iff 4 _ _ ht1 hu1, padNum_eq_iff 4 _ _ ht1 hu1,
    lex_pad_append_iff, padNum_lt_iff 2 _ _ ht2 hu2, padNum_eq_iff 2 _ _ ht2 hu2,
    lex_pad_append_iff, padNum_lt_iff 2 _ _ ht3 hu3, padNum_eq_iff 2 _ _ ht3 hu3,
    lex_sep_append_iff,
    lex_pad_append_iff, padNum_lt_iff 2 _ _ ht4 hu4, padNum_eq_iff 2 _ _ ht4 hu4,
    lex_pad_append_iff, padNum_lt_iff 2 _ _ ht5 hu5, padNum_eq_iff 2 _ _ ht5 hu5,
    padNum_lt_iff 2 _ _ ht6 hu6]
  unfold Timestamp.secChronLt
  tauto

theorem length_tsChars (t : Timestamp) : (tsChars t).length = 22 := by
  simp [tsChars, length_padNum]

theorem length_oldTsChars (t : Timestamp) : (oldTsChars t).length = 15 := by
  simp [oldTsChars, length_padNum]

theorem data_backupName (t : Timestamp) :
    (backupName t).data = "claude_".data ++ (tsChars t ++ ".json".data) := by
  unfold backupName
  rw [String.data_append, String.data_append, List.append_assoc]

theorem data_oldBackupName (t : Timestamp) :
    (oldBackupName t).data = "claude_".data ++ (oldTsChars t ++ ".json".data) := by
  unfold oldBackupName
  rw [String.data_append, String.data_append, List.append_assoc]

/-- The new-format backup filename is strictly monotone in the creation
instant: lexicographic filename order is chronological order. -/
theorem backupName_lt_iff {t u : Timestamp} (ht : t.inRange) (hu : u.inRange) :
    (backupName t < backupName u ↔ t.chronLt u) := by
  rw [String.lt_iff_toList_lt]
  change List.Lex (· < ·) (backupName t).data (backupName u).data ↔ _
  rw [data_backupName, data_backupName,
    lex_append_iff (tsChars t ++ ".json".data) (tsChars u ++ ".json".data) rfl,
    lex_append_iff ".json".data ".json".data (by simp [length_tsChars])]
  have h1 : ¬List.Lex (· < ·) "claude_".data "claude_".data :=
    lex_irrefl (fun c => lt_irrefl c) _
  have h2 : ¬List.Lex (· < ·) ".json".data ".json".data :=
    lex_irrefl (fun c => lt_irrefl c) _
  simp [h1, h2, tsChars_lt_iff ht hu]

/-- The old-format backup filename is strictly monotone in the creation
instant at second resolution. -/
theorem oldBackupName_lt_iff {t u : Timestamp} (ht : t.inRange) (hu : u.inRange) :
    (oldBackupName t < oldBackupName u ↔ t.secChronLt u) := by
  rw [String.lt_iff_toList_lt]
  change List.Lex (· < ·) (oldBackupName t).data (oldBackupName u).data ↔ _
  rw [data_oldBackupName, data_oldBackupName,
    lex_append_iff (oldTsChars t ++ ".json".data) (oldTsChars u ++ ".json".data) rfl,
    lex_append_iff ".json".data ".json".data (by simp [length_oldTsChars])]
  have h1 : ¬List.Lex (· < ·) "claude_".data "claude_".data :=
    lex_irrefl (fun c => lt_irrefl c) _
  have h2 : ¬List.Lex (· < ·) ".json".data ".json".data :=
    lex_irrefl (fun c => lt_irrefl c) _
  simp [h1, h2, oldTsChars_lt_iff ht hu]

theorem chronLt_iff_key_lt {t u : Timestamp} (ht : t.inRange) (hu : u.inRange) :
    t.chronLt u ↔ t.key < u.key := by
  obtain ⟨ht0, ht1, ht2, ht3, ht4, ht5, ht6, ht7⟩ := ht
  obtain ⟨hu0, hu1, hu2, hu3, hu4, hu5, hu6, hu7⟩ := hu
  norm_num at ht1 ht2 ht3 ht4 ht5 ht6 ht7 hu1 hu2 hu3 hu4 hu5 hu6 hu7
  unfold Timestamp.chronLt Timestamp.key
  omega

theorem backupName_ne_of_key_ne {t u : Timestamp} (ht : t.inRange) (hu : u.inRange)
    (h : t.key ≠ u.key) : backupName t ≠ backupName u := by
  rcases Nat.lt_or_ge t.key u.key with hk | hk
  · exact ne_of_lt ((backupName_lt_iff ht hu).mpr ((chronLt_iff_key_lt ht hu).mpr hk))
  · have hk' : u.key < t.key := by omega
    exact (ne_of_lt ((backupName_lt_iff hu ht).mpr ((chronLt_iff_key_lt hu ht).mpr hk'))).symm

theorem isPrefixOfAppend (l m : List Char) : l.isPrefixOf (l ++ m) = true := by
  induction l with
  | nil => simp
  | cons x xs ih => simp [List.isPrefixOf_cons₂, ih]

theorem isSuffixOfAppend (l m : List Char) : m.isSuffixOf (l ++ m) = true := by
  simp only [List.isSuffixOf, List.reverse_append]
  exact isPrefixOfAppend m.reverse l.reverse

theorem matchesGlob_backupName (t : Timestamp) :
    ClaudeConfigManager.matchesGlob (backupName t) = true := by
  unfold ClaudeConfigManager.matchesGlob
  rw [Bool.and_eq_true]
  constructor
  · rw [data_backupName]
    exact isPrefixOfAppend _ _
  · unfold backupName
    rw [String.data_append]
    exact isSuffixOfAppend _ _

theorem matchesGlob_oldBackupName (t : Timestamp) :
    ClaudeConfigManager.matchesGlob (oldBackupName t) = true := by
  unfold ClaudeConfigManager.matchesGlob
  rw [Bool.and_eq_true]
  constructor
  · rw [data_oldBackupName]
    exact isPrefixOfAppend _ _
  · unfold oldBackupName
    rw [String.data_append]
    exact isSuffixOfAppend _ _

namespace ClaudeConfigManager

/-! ## Rotation machinery -/

/-- Closed form of the deletion loop: it deletes exactly the doomed
files named before the first `unlink` failure (the `takeWhile` prefix),
and completes without raising iff no doomed file's `unlink` fails. -/
theorem unlinkAll_spec (uf : String → Bool) : ∀ (doomed : List String)
    (bs : List (String × FileContent)),
    unlinkAll bs doomed uf =
      (bs.filter (fun kv => !decide (kv.1 ∈ doomed.takeWhile (fun d => !uf d))),
       doomed.all (fun d => !uf d)) := by
  intro doomed
  induction doomed with
  | nil =>
      intro bs
      simp [unlinkAll]
  | cons d rest ih =>
      intro bs
      by_cases hf : uf d
      · simp [unlinkAll, hf]
      · simp only [unlinkAll, hf, if_neg, Bool.false_eq_true, not_false_eq_true, ih]
        simp only [Prod.mk.injEq]
        constructor
        · rw [List.filter_filter]
          apply List.filter_congr
          intro kv _
          have htw : (d :: rest).takeWhile (fun d => !uf d) =
              d :: rest.takeWhile (fun d => !uf d) := by
            simp [List.takeWhile_cons, hf]
          rw [htw]
          by_cases h1 : kv.1 = d <;> by_cases h2 : kv.1 ∈ rest.takeWhile (fun d => !uf d) <;>
            simp [h1, h2]
        · simp [hf]

/-- Projecting filenames out of a listing filtered by a predicate on the
filename. -/
theorem map_fst_filter (p : String → Bool) (bs : List (String × FileContent)) :
    (bs.filter (fun kv => p kv.1)).map Prod.fst = (bs.map Prod.fst).filter p := by
  induction bs with
  | nil => rfl
  | cons kv rest ih => by_cases h : p kv.1 <;> simp [h, ih]

theorem mem_map_fst_setEntry (bs : List (String × FileContent)) (k : String)
    (v : FileContent) : k ∈ (setEntry bs k v).map Prod.fst := by
  induction bs with
  | nil => simp [setEntry]
  | cons kv rest ih =>
      by_cases h : kv.1 = k <;> simp [setEntry, h, ih]

end ClaudeConfigManager

/-! ## Which elements survive keeping the largest N of a sorted list -/

theorem filter_length_lt_of_mem {p : String → Bool} {b : List String} {x : String}
    (hx : x ∈ b) (hpx : p x = false) : (b.filter p).length < b.length := by
  induction b with
  | nil => cases hx
  | cons y ys ih =>
      rcases List.mem_cons.mp hx with rfl | hmem
      · rw [List.filter_cons_of_neg (by simp [hpx])]
        exact Nat.lt_succ_of_le (List.length_filter_le p ys)
      · by_cases hy : p y
        · rw [List.filter_cons_of_pos hy]
          simpa using Nat.succ_lt_succ (ih hmem)
        · rw [List.filter_cons_of_neg (by simp [hy])]
          exact Nat.lt_succ_of_lt (ih hmem)

/-- An element of a duplicate-free list survives into the last `N`
positions of its ascending sort iff fewer than `N` elements of the list
are greater than it — i.e. the kept elements are exactly the `N`
largest. -/
theorem mem_drop_insertionSort_iff {l : List String} (hnd : l.Nodup) {N : Nat}
    (hN : N ≤ l.length) (x : String) :
    (x ∈ (List.insertionSort strLe l).drop (l.length - N) ↔
      x ∈ l ∧ (l.filter (fun y => decide (x < y))).length < N) := by
  set sorted := List.insertionSort strLe l with hsorted
  have hperm : List.Perm sorted l := List.perm_insertionSort _ l
  have hsor : List.Sorted (· ≤ ·) sorted :=
    (List.sorted_insertionSort strLe l).imp (fun h => (strLe_iff_le _ _).mp h)
  have hndup : sorted.Nodup := hperm.nodup_iff.mpr hnd
  have hstrict : sorted.Pairwise (· < ·) :=
    (List.pairwise_and_iff.mpr ⟨hsor, hndup⟩).imp (fun h => lt_of_le_of_ne h.1 h.2)
  have hlen : sorted.length = l.length := hperm.length_eq
  set a := sorted.take (l.length - N) with ha
  set b := sorted.drop (l.length - N) with hb
  have hsplit : sorted = a ++ b := (List.take_append_drop _ _).symm
  have hblen : b.length = N := by
    rw [hb, List.length_drop, hlen]
    omega
  have hcross : ∀ y ∈ a, ∀ z ∈ b, y < z := by
    have hs := hstrict
    rw [hsplit] at hs
    exact (List.pairwise_append.mp hs).2.2
  have hCG : ∀ x : String, (l.filter (fun y => decide (x < y))).length =
      (a.filter (fun y => decide (x < y))).length +
        (b.filter (fun y => decide (x < y))).length := by
    intro x
    have h1 : (l.filter (fun y => decide (x < y))).length =
        (sorted.filter (fun y => decide (x < y))).length :=
      ((hperm.symm).filter _).length_eq
    rw [h1, hsplit, List.filter_append, List.length_append]
  constructor
  · intro hx
    have hxl : x ∈ l := hperm.mem_iff.mp (by rw [hsplit]; exact List.mem_append_right a hx)
    refine ⟨hxl, ?_⟩
    rw [hCG x]
    have hfa : a.filter (fun y => decide (x < y)) = [] := by
      rw [List.filter_eq_nil_iff]
      intro y hy
      simp only [decide_eq_true_eq]
      exact fun hlt => absurd (hcross y hy x hx) (lt_asymm hlt)
    rw [hfa]
    simp only [List.length_nil, Nat.zero_add]
    calc (b.filter (fun y => decide (x < y))).length
        < b.length := filter_length_lt_of_mem hx (by simp)
      _ = N := hblen
  · rintro ⟨hxl, hcg⟩
    have hxs : x ∈ a ++ b := by
      rw [← hsplit]
      exact hperm.mem_iff.mpr hxl
    rcases List.mem_append.mp hxs with hxa | hxb
    · exfalso
      have hfb : b.filter (fun y => decide (x < y)) = b := by
        rw [List.filter_eq_self]
        intro z hz
        simp only [decide_eq_true_eq]
        exact hcross x hxa z hz
      rw [hCG x, hfb, hblen] at hcg
      omega
    · exact hxb

namespace ClaudeConfigManager

theorem takeWhile_not_false (l : List String) : (l.takeWhile (fun _ => !false)) = l := by
  induction l with
  | nil => rfl
  | cons x xs ih => simp [List.takeWhile_cons, ih]

theorem all_not_false (l : List String) : (l.all (fun _ => !false)) = true := by simp

/-- With no injected faults, rotation deletes exactly the doomed prefix
of the ascending sort and completes successfully. -/
theorem clean_noFault_eq (s : ManagerState) (keep : Nat) (hkeep : keep ≠ 0)
    (hgt : (List.insertionSort strLe (globNames s)).length > keep) :
    clean_old_backups s keep (fun _ => false) =
      ({ s with backups := s.backups.filter (fun kv => !decide (kv.1 ∈
          (List.insertionSort strLe (globNames s)).take
            ((List.insertionSort strLe (globNames s)).length - keep))) }, true) := by
  unfold clean_old_backups
  dsimp only
  rw [if_pos hgt, if_neg hkeep, unlinkAll_spec]
  rw [takeWhile_not_false, all_not_false]

/-- Counting survivors of deleting the members of `D` from a
duplicate-free split `D ++ K`. -/
theorem length_filter_not_mem_of_perm {l D K : List String}
    (hperm : List.Perm l (D ++ K)) (hnd : (D ++ K).Nodup) :
    (l.filter (fun n => !decide (n ∈ D))).length = K.length := by
  rw [(hperm.filter _).length_eq, List.filter_append, List.length_append]
  have hdisj := (List.nodup_append.mp hnd).2.2
  have hd0 : D.filter (fun n => !decide (n ∈ D)) = [] := by
    rw [List.filter_eq_nil_iff]
    intro y hy
    simp only [Bool.not_eq_true', decide_eq_false_iff_not]
    exact not_not_intro hy
  have hk1 : K.filter (fun n => !decide (n ∈ D)) = K := by
    rw [List.filter_eq_self]
    intro z hz
    simp only [Bool.not_eq_true', decide_eq_false_iff_not]
    exact fun hd => hdisj hd hz
  rw [hd0, hk1, List.length_nil, Nat.zero_add]

/-- Membership among those survivors. -/
theorem mem_filter_not_mem_iff {l D K : List String} (x : String)
    (hperm : List.Perm l (D ++ K)) (hnd : (D ++ K).Nodup) (hx : x ∈ l) :
    ((x ∈ l.filter (fun n => !decide (n ∈ D))) ↔ x ∈ K) := by
  rw [List.mem_filter]
  have hdisj := (List.nodup_append.mp hnd).2.2
  constructor
  · rintro ⟨hxl, hq⟩
    simp only [Bool.not_eq_true', decide_eq_false_iff_not] at hq
    rcases List.mem_append.mp (hperm.mem_iff.mp hxl) with hd | hk
    · exact absurd hd hq
    · exact hk
  · intro hk
    refine ⟨hx, ?_⟩
    simp only [Bool.not_eq_true', decide_eq_false_iff_not]
    exact fun hd => hdisj hd hk

/-- Rotation with no faults keeps exactly `keep` files: precisely those
whose timestamps have fewer than `keep` strictly later timestamps among
the backups. -/
theorem rotation_keeps_largest (s : ManagerState) (ts : List Timestamp) (keep : Nat)
    (hkeep : 1 ≤ keep)
    (hnames : s.backups.map Prod.fst = ts.map backupName)
    (hrange : ∀ t ∈ ts, t.inRange)
    (hdist : ts.Pairwise (fun a b => a.key ≠ b.key))
    (hlen : ts.length > keep) :
    (clean_old_backups s keep (fun _ => false)).2 = true ∧
      (clean_old_backups s keep (fun _ => false)).1.backups.length = keep ∧
      (∀ t ∈ ts, (backupName t ∈
          (clean_old_backups s keep (fun _ => false)).1.backups.map Prod.fst ↔
        (ts.filter (fun u => decide (t.key < u.key))).length < keep)) := by
  have hnodup : (s.backups.map Prod.fst).Nodup := by
    rw [hnames]
    exact (hdist.imp_of_mem (fun ha hb hne =>
      backupName_ne_of_key_ne (hrange _ ha) (hrange _ hb) hne)).map backupName
      (fun a b h => h)
  have hmatch : ∀ n ∈ s.backups.map Prod.fst, matchesGlob n = true := by
    rw [hnames]
    intro n hn
    obtain ⟨t, ht, rfl⟩ := List.mem_map.mp hn
    exact matchesGlob_backupName t
  have hglob : globNames s = s.backups.map Prod.fst :=
    List.filter_eq_self.mpr hmatch
  have hnameslen : (s.backups.map Prod.fst).length = ts.length := by
    rw [hnames]
    exact List.length_map _ _
  have hsl : (List.insertionSort strLe (s.backups.map Prod.fst)).length =
      (s.backups.map Prod.fst).length :=
    (List.perm_insertionSort _ _).length_eq
  have hgt : (List.insertionSort strLe (globNames s)).length > keep := by
    rw [hglob, hsl, hnameslen]
    exact hlen
  have hkeep0 : keep ≠ 0 := by omega
  have hclean := clean_noFault_eq s keep hkeep0 hgt
  rw [hglob, hsl] at hclean
  have hperm2 : List.Perm (List.insertionSort strLe (s.backups.map Prod.fst))
      (s.backups.map Prod.fst) := List.perm_insertionSort _ _
  have hsplitperm : List.Perm (s.backups.map Prod.fst)
      ((List.insertionSort strLe (s.backups.map Prod.fst)).take
          ((s.backups.map Prod.fst).length - keep) ++
        (List.insertionSort strLe (s.backups.map Prod.fst)).drop
          ((s.backups.map Prod.fst).length - keep)) := by
    rw [List.take_append_drop]
    exact hperm2.symm
  have hsplitnodup : ((List.insertionSort strLe (s.backups.map Prod.fst)).take
      ((s.backups.map Prod.fst).length - keep) ++
        (List.insertionSort strLe (s.backups.map Prod.fst)).drop
          ((s.backups.map Prod.fst).length - keep)).Nodup := by
    rw [List.take_append_drop]
    exact hperm2.nodup_iff.mpr hnodup
  have h2 : (clean_old_backups s keep (fun _ => false)).1.backups.map Prod.fst =
      (s.backups.map Prod.fst).filter (fun n => !decide (n ∈
        (List.insertionSort strLe (s.backups.map Prod.fst)).take
          ((s.backups.map Prod.fst).length - keep))) := by
    rw [hclean]
    dsimp only
    exact map_fst_filter (fun n => !decide (n ∈
      (List.insertionSort strLe (s.backups.map Prod.fst)).take
        ((s.backups.map Prod.fst).length - keep))) s.backups
  refine ⟨by rw [hclean], ?_, ?_⟩
  · have hlens := congrArg List.length h2
    rw [List.length_map, length_filter_not_mem_of_perm hsplitperm hsplitnodup,
      List.length_drop, hsl] at hlens
    rw [hlens]
    omega
  · intro t ht
    have hmem : backupName t ∈ s.backups.map Prod.fst := by
      rw [hnames]
      exact List.mem_map_of_mem backupName ht
    have hcore := mem_drop_insertionSort_iff hnodup
      (N := keep) (by omega : keep ≤ (s.backups.map Prod.fst).length) (backupName t)
    have hcg : ((s.backups.map Prod.fst).filter
        (fun y => decide (backupName t < y))).length =
        (ts.filter (fun u => decide (t.key < u.key))).length := by
      rw [hnames, List.filter_map, List.length_map]
      apply congrArg List.length
      apply List.filter_congr
      intro u hu
      simp only [Function.comp]
      rw [decide_eq_decide]
      rw [backupName_lt_iff (hrange t ht) (hrange u hu)]
      exact chronLt_iff_key_lt (hrange t ht) (hrange u hu)
    rw [h2, mem_filter_not_mem_iff (backupName t) hsplitperm hsplitnodup hmem, hcore, hcg]
    simp [hmem]
end ClaudeConfigManager


namespace ClaudeConfigManager

/-- The timestamps of `n` sequential `create_backup` calls, one
microsecond apart. -/
def seqTs (n : Nat) : List Timestamp :=
  (List.range n).map (fun i => ⟨2024, 1, 1, 0, 0, 0, i⟩)

/-- A fresh state: a valid config file on disk, empty backup directory. -/
def c5Start : ManagerState :=
  { configData := [], configFile := some (.json (.obj [])), tempFile := none, backups := [] }

/-- Run `create_backup` (no injected faults) once per timestamp. -/
def runBackups (s : ManagerState) (ts : List Timestamp) : ManagerState :=
  ts.foldl (fun st t => (create_backup st t (fun _ => false)).1) s

/-- A backup directory holding one well-named backup file. -/
def c5ZeroState : ManagerState :=
  { configData := [], configFile := none, tempFile := none,
    backups := [(backupName ⟨2024, 1, 1, 0, 0, 0, 0⟩, .json (.obj []))] }

/-- C5 counterexample: with `M = 1` backup file (distinct timestamped
name) and `keepCount = N = 0 < M`, the claim demands that exactly `0`
files remain; but the Python slice `backups[:-keep_count]` is empty for
`keep_count = 0` (config.py:128), so rotation deletes nothing and one
file remains. -/
theorem C5_counterexample :
    (clean_old_backups c5ZeroState 0 (fun _ => false)).1.backups.length = 1 := by decide

/-- C5 (amended, requiring `keepCount ≥ 1`): for every backup directory
of `M` backup files with distinct timestamped names, `M > N ≥ 1`,
rotation with `keepCount = N` completes, leaves exactly `N` files, and
a file survives iff fewer than `N` of the backups carry strictly later
timestamps — i.e. the survivors are exactly the `N` most recently
created.  And with the default `keepCount = 10`, 15 sequential
`create_backup` calls starting from an empty backup directory leave
exactly the newest 10 files. -/
theorem C5_rotation_keeps_newest :
    (∀ (s : ManagerState) (ts : List Timestamp) (keep : Nat),
      1 ≤ keep →
      s.backups.map Prod.fst = ts.map backupName →
      (∀ t ∈ ts, t.inRange) →
      ts.Pairwise (fun a b => a.key ≠ b.key) →
      ts.length > keep →
      (clean_old_backups s keep (fun _ => false)).2 = true ∧
        (clean_old_backups s keep (fun _ => false)).1.backups.length = keep ∧
        (∀ t ∈ ts, (backupName t ∈
            (clean_old_backups s keep (fun _ => false)).1.backups.map Prod.fst ↔
          (ts.filter (fun u => decide (t.key < u.key))).length < keep))) ∧
    (runBackups c5Start (seqTs 15)).backups.map Prod.fst =
      (List.range 10).map (fun i => backupName ⟨2024, 1, 1, 0, 0, 0, i + 5⟩) :=
  ⟨rotation_keeps_largest, by decide⟩

/-- A backup directory holding 2 well-named backup files. -/
def c5WitState : ManagerState :=
  { configData := [], configFile := none, tempFile := none,
    backups := (seqTs 2).map (fun t => (backupName t, FileContent.json (.obj []))) }

theorem C5_rotation_keeps_newest_witness :
    (1 ≤ 1 ∧ c5WitState.backups.map Prod.fst = (seqTs 2).map backupName ∧
      (∀ t ∈ seqTs 2, t.inRange) ∧
      (seqTs 2).Pairwise (fun a b => a.key ≠ b.key) ∧ (seqTs 2).length > 1) ∧
    ((clean_old_backups c5WitState 1 (fun _ => false)).2 = true ∧
      (clean_old_backups c5WitState 1 (fun _ => false)).1.backups.length = 1 ∧
      (∀ t ∈ seqTs 2, (backupName t ∈
          (clean_old_backups c5WitState 1 (fun _ => false)).1.backups.map Prod.fst ↔
        ((seqTs 2).filter (fun u => decide (t.key < u.key))).length < 1))) :=
  ⟨⟨by decide, by decide, by decide, by decide, by decide⟩,
    C5_rotation_keeps_newest.1 c5WitState (seqTs 2) 1 (by decide) (by decide)
      (by decide) (by decide) (by decide)⟩

end ClaudeConfigManager

namespace ClaudeConfigManager

/-! ## C6: a deletion failure during rotation -/

/-- The state right after `create_backup` has copied the config file
into the backup directory, before rotation runs. -/
def copiedState (s : ManagerState) (now : Timestamp) (c : FileContent) : ManagerState :=
  { s with backups := setEntry s.backups (backupName now) c }

/-- Eleven timestamped backups plus a valid config file. -/
def c6State : ManagerState :=
  { configData := [], configFile := some (.json (.obj [])), tempFile := none,
    backups := (seqTs 11).map (fun t => (backupName t, FileContent.json (.obj []))) }

/-- Fault set where `unlink` fails exactly on the oldest backup file. -/
def c6Fails : String → Bool := fun n => decide (n = backupName ⟨2024, 1, 1, 0, 0, 0, 0⟩)

/-- C6 counterexample: with 11 existing backups, a 12th `create_backup`
dooms the two oldest; `unlink` failing on the first doomed file aborts
the loop (config.py:128-130 has no per-file handler), so the second
doomed file is never attempted and survives — and the exception
propagates into `create_backup`'s handler, which returns `None`, not
the new backup's path.  Both halves of the claim ("remaining surplus
old files are still attempted" and "its path is still returned") fail. -/
theorem C6_counterexample :
    (create_backup c6State ⟨2024, 1, 1, 0, 0, 0, 11⟩ c6Fails).2 = none ∧
      backupName ⟨2024, 1, 1, 0, 0, 0, 1⟩ ∈
        (create_backup c6State ⟨2024, 1, 1, 0, 0, 0, 11⟩ c6Fails).1.backups.map Prod.fst :=
  ⟨by decide, by decide⟩

/-- C6 (amended): a deletion failure during rotation aborts the batch:
exactly the doomed files listed before the first failing one are
deleted; the failing file and every doomed file after it remain on
disk; and the exception is caught by the enclosing `create_backup`,
which returns `None` even though the new backup file was created. -/
theorem ite_pair {α β : Type} (c : Prop) [Decidable c] (x : α) (y z : β) :
    (if c then (x, y) else (x, z)) = (x, if c then y else z) := by
  split <;> rfl

theorem create_backup_eq (s : ManagerState) (now : Timestamp) (uf : String → Bool)
    (c : FileContent) (hcf : s.configFile = some c) :
    create_backup s now uf =
      ((clean_old_backups (copiedState s now c) 10 uf).1,
        if (clean_old_backups (copiedState s now c) 10 uf).2 then some (backupName now)
        else none) := by
  obtain ⟨cd, cf, tf, bk⟩ := s
  dsimp only at hcf
  subst hcf
  unfold create_backup copiedState
  dsimp only
  exact ite_pair _ _ _ _

theorem C6_rotation_failure_aborts (s : ManagerState) (now : Timestamp)
    (uf : String → Bool) (c : FileContent)
    (hcf : s.configFile = some c)
    (hgt : (List.insertionSort strLe (globNames (copiedState s now c))).length > 10)
    (hfault : ((List.insertionSort strLe (globNames (copiedState s now c))).take
        ((List.insertionSort strLe (globNames (copiedState s now c))).length - 10)).all
        (fun d => !uf d) = false) :
    (create_backup s now uf).2 = none ∧
      (create_backup s now uf).1.backups =
        (copiedState s now c).backups.filter (fun kv => !decide (kv.1 ∈
          ((List.insertionSort strLe (globNames (copiedState s now c))).take
            ((List.insertionSort strLe (globNames (copiedState s now c))).length - 10)).takeWhile
              (fun d => !uf d))) ∧
      (∀ d, d ∉ ((List.insertionSort strLe (globNames (copiedState s now c))).take
            ((List.insertionSort strLe (globNames (copiedState s now c))).length - 10)).takeWhile
              (fun d => !uf d) →
        d ∈ (copiedState s now c).backups.map Prod.fst →
        d ∈ (create_backup s now uf).1.backups.map Prod.fst) := by
  have hclean : clean_old_backups (copiedState s now c) 10 uf =
      ({ copiedState s now c with backups :=
          (copiedState s now c).backups.filter (fun kv => !decide (kv.1 ∈
            ((List.insertionSort strLe (globNames (copiedState s now c))).take
              ((List.insertionSort strLe (globNames (copiedState s now c))).length - 10)).takeWhile
                (fun d => !uf d))) },
        ((List.insertionSort strLe (globNames (copiedState s now c))).take
          ((List.insertionSort strLe (globNames (copiedState s now c))).length - 10)).all
          (fun d => !uf d)) := by
    unfold clean_old_backups
    dsimp only
    rw [if_pos hgt, if_neg (by decide : ¬(10 = 0)), unlinkAll_spec]
  have hcb := create_backup_eq s now uf c hcf
  have hb : (create_backup s now uf).1.backups =
      (copiedState s now c).backups.filter (fun kv => !decide (kv.1 ∈
        ((List.insertionSort strLe (globNames (copiedState s now c))).take
          ((List.insertionSort strLe (globNames (copiedState s now c))).length - 10)).takeWhile
            (fun d => !uf d))) := by
    rw [hcb, hclean]
  refine ⟨?_, hb, ?_⟩
  · rw [hcb, hclean]
    simp only [hfault]
    rfl
  · intro d hd hdm
    rw [hb, map_fst_filter (fun n => !decide (n ∈
      ((List.insertionSort strLe (globNames (copiedState s now c))).take
        ((List.insertionSort strLe (globNames (copiedState s now c))).length - 10)).takeWhile
          (fun d => !uf d)))]
    rw [List.mem_filter]
    refine ⟨hdm, ?_⟩
    simp only [Bool.not_eq_true', decide_eq_false_iff_not]
    exact hd

theorem C6_rotation_failure_aborts_witness :
    (c6State.configFile = some (.json (.obj [])) ∧
      (List.insertionSort strLe (globNames
        (copiedState c6State ⟨2024, 1, 1, 0, 0, 0, 11⟩ (.json (.obj []))))).length > 10) ∧
      (create_backup c6State ⟨2024, 1, 1, 0, 0, 0, 11⟩ c6Fails).2 = none :=
  ⟨⟨rfl, by decide⟩,
    (C6_rotation_failure_aborts c6State ⟨2024, 1, 1, 0, 0, 0, 11⟩ c6Fails
      (.json (.obj [])) rfl (by decide) (by decide)).1⟩

end ClaudeConfigManager

namespace ClaudeConfigManager

/-! ## C7: get_backups ordering -/

/-- C7: `get_backups` returns every backup file (any mix of old- and
new-format names), sorted most-recent-first (reverse lexicographic on
filename); and filename order agrees with chronological creation order
for the timestamped naming scheme: within the new format, within the
old format, and across the two formats whenever they differ at second
resolution. -/
theorem C7_get_backups_order :
    (∀ s : ManagerState,
      (∀ n ∈ s.backups.map Prod.fst, matchesGlob n = true) →
      (List.Perm (get_backups s) (s.backups.map Prod.fst) ∧
        (get_backups s).Pairwise (fun a b => b ≤ a))) ∧
    (∀ t u : Timestamp, t.inRange → u.inRange →
      (t.chronLt u ↔ backupName t < backupName u)) ∧
    (∀ t u : Timestamp, t.inRange → u.inRange →
      (t.secChronLt u ↔ oldBackupName t < oldBackupName u)) ∧
    (∀ t u : Timestamp, t.inRange → u.inRange → t.secChronLt u →
      oldBackupName t < backupName u ∧ backupName t < oldBackupName u) := by
  refine ⟨?_, ?_, ?_, ?_⟩
  · intro s h
    have hglob : globNames s = s.backups.map Prod.fst := List.filter_eq_self.mpr h
    constructor
    · unfold get_backups
      rw [hglob]
      exact (List.reverse_perm _).trans (List.perm_insertionSort _ _)
    · unfold get_backups
      rw [List.pairwise_reverse]
      exact (List.sorted_insertionSort strLe _).imp (fun hab => (strLe_iff_le _ _).mp hab)
  · exact fun t u ht hu => (backupName_lt_iff ht hu).symm
  · exact fun t u ht hu => (oldBackupName_lt_iff ht hu).symm
  · refine fun t u ht hu hsec => ⟨?_, ?_⟩
    · rw [String.lt_iff_toList_lt]
      change List.Lex (· < ·) (oldBackupName t).data (backupName u).data
      rw [data_oldBackupName, data_backupName]
      have e : tsChars u ++ ".json".data =
          oldTsChars u ++ (['_'] ++ (padNum 6 u.micro ++ ".json".data)) := by
        simp [tsChars, oldTsChars, List.append_assoc]
      rw [e]
      rw [lex_append_iff _ _ rfl]
      refine Or.inr ⟨rfl, ?_⟩
      rw [lex_append_iff _ _ (by simp [length_oldTsChars])]
      exact Or.inl ((oldTsChars_lt_iff ht hu).mpr hsec)
    · rw [String.lt_iff_toList_lt]
      change List.Lex (· < ·) (backupName t).data (oldBackupName u).data
      rw [data_backupName, data_oldBackupName]
      have e : tsChars t ++ ".json".data =
          oldTsChars t ++ (['_'] ++ (padNum 6 t.micro ++ ".json".data)) := by
        simp [tsChars, oldTsChars, List.append_assoc]
      rw [e]
      rw [lex_append_iff _ _ rfl]
      refine Or.inr ⟨rfl, ?_⟩
      rw [lex_append_iff _ _ (by simp [length_oldTsChars])]
      exact Or.inl ((oldTsChars_lt_iff ht hu).mpr hsec)

/-- A backup directory mixing one old-format and one new-format name. -/
def c7State : ManagerState :=
  { configData := [], configFile := none, tempFile := none,
    backups := [(oldBackupName ⟨2024, 1, 1, 0, 0, 0, 0⟩, FileContent.json (.obj [])),
                (backupName ⟨2024, 1, 2, 0, 0, 0, 0⟩, FileContent.json (.obj []))] }

theorem C7_get_backups_order_witness :
    (∀ n ∈ c7State.backups.map Prod.fst, matchesGlob n = true) ∧
      (List.Perm (get_backups c7State) (c7State.backups.map Prod.fst) ∧
        (get_backups c7State).Pairwise (fun a b => b ≤ a)) :=
  ⟨by decide, C7_get_backups_order.1 c7State (by decide)⟩

end ClaudeConfigManager
